import Mathlib

/-!
Verification of the CAVI engine in src/src/fit.cpp (group spike-and-slab
variational Bayes for linear regression).

The C++ code is shallowly embedded over the reals.  Dense vectors are
encoded as functions from index to real (with the length carried
separately, as in the Armadillo vectors whose length is a run-time value);
group index sets, which the code materialises with arma::find, are encoded
as lists of indices; sub-vectors indexed by a group are encoded as lists
of reals, indexed positionally exactly as the Armadillo sub-views are.

Three kinds of code called from fit.cpp live outside the repository and
are therefore parameters of the embedding rather than definitions
translated from source:
  - the ensmallen L-BFGS optimiser (ens::L_BFGS::Optimize), modelled as an
    arbitrary function taking the objective, its gradient and the starting
    point and returning the final iterate;
  - the R special functions R::lgammafn, R::digamma, R::trigamma,
    modelled as arbitrary real functions (the gradient-exactness theorem
    assumes exactly their defining derivative relations);
  - the Monte-Carlo ELBO estimator (declared in fit.h), modelled as an
    arbitrary function of the arguments the call site passes.
All of these are collected in the FitExt structure below.
-/

namespace Gsvb

/-! ## The quadratic-form cache: xtx, yty, yx (fit.cpp lines 15-17) -/

/-- xtx = X.t() * X, entrywise: (XᵀX) i j = Σ k < n, X k i * X k j. -/
noncomputable def xtxOf (n : ℕ) (X : ℕ → ℕ → ℝ) : ℕ → ℕ → ℝ :=
  fun i j => ∑ k ∈ Finset.range n, X k i * X k j

/-- yty = dot(y, y). -/
noncomputable def ytyOf (n : ℕ) (y : ℕ → ℝ) : ℝ :=
  ∑ k ∈ Finset.range n, y k * y k

/-- yx = (y.t() * X).t(), entrywise: yx i = Σ k < n, y k * X k i. -/
noncomputable def yxOf (n : ℕ) (y : ℕ → ℝ) (X : ℕ → ℕ → ℝ) : ℕ → ℝ :=
  fun i => ∑ k ∈ Finset.range n, y k * X k i

/-! ## compute_S (fit.cpp lines 341-364)

The accumulation over the nested loops on i and j, with the three
independent if-statements of the body, is embedded as a double sum of the
three guarded contributions. -/

noncomputable def compute_S (yty : ℝ) (yx : ℕ → ℝ) (xtx : ℕ → ℕ → ℝ)
    (groups : ℕ → ℕ) (mu s g : ℕ → ℝ) (p : ℕ) : ℝ :=
  let xtx_bi_bj : ℝ :=
    ∑ i ∈ Finset.range p, ∑ j ∈ Finset.range p,
      ((if i = j then xtx i i * g i * (s i * s i + mu i * mu i) else 0) +
       (if i ≠ j ∧ groups i = groups j then xtx i j * g i * mu i * mu j else 0) +
       (if i ≠ j ∧ groups i ≠ groups j then xtx i j * g i * g j * mu i * mu j else 0))
  yty + xtx_bi_bj - 2 * ∑ i ∈ Finset.range p, yx i * (g i * mu i)

/-- The contribution(i,j) table exactly as the spec words it (three-way
case split; the same-group off-diagonal case uses only g i). -/
noncomputable def contrib (xtx : ℕ → ℕ → ℝ) (groups : ℕ → ℕ)
    (mu s g : ℕ → ℝ) (i j : ℕ) : ℝ :=
  if i = j then xtx i i * g i * (s i * s i + mu i * mu i)
  else if groups i = groups j then xtx i j * g i * mu i * mu j
  else xtx i j * g i * g j * mu i * mu j

/-- The spec formula S = yty + Σ_i Σ_j contribution(i,j) − 2·yxᵗ(g∘mu),
written from the spec text for comparison against compute_S. -/
noncomputable def compute_S_spec (yty : ℝ) (yx : ℕ → ℝ) (xtx : ℕ → ℕ → ℝ)
    (groups : ℕ → ℕ) (mu s g : ℕ → ℝ) (p : ℕ) : ℝ :=
  yty + (∑ i ∈ Finset.range p, ∑ j ∈ Finset.range p, contrib xtx groups mu s g i j)
      - 2 * ∑ i ∈ Finset.range p, yx i * (g i * mu i)

/-- C2: compute_S returns yty + Σ_(i,j) contribution(i,j) − 2·yxᵗ(g∘mu)
with contribution(i,j) given by the three-way case split: the diagonal
uses xtx[i,i]*g[i]*(s[i]²+mu[i]²), same-group off-diagonal terms use
xtx[i,j]*g[i]*mu[i]*mu[j] (only g[i], not g[i]*g[j]), and different-group
terms use xtx[i,j]*g[i]*g[j]*mu[i]*mu[j]. -/
theorem compute_S_eq_spec (yty : ℝ) (yx : ℕ → ℝ) (xtx : ℕ → ℕ → ℝ)
    (groups : ℕ → ℕ) (mu s g : ℕ → ℝ) (p : ℕ) :
    compute_S yty yx xtx groups mu s g p =
      compute_S_spec yty yx xtx groups mu s g p := by
  unfold compute_S compute_S_spec
  dsimp only
  have h : ∀ i j : ℕ,
      ((if i = j then xtx i i * g i * (s i * s i + mu i * mu i) else 0) +
       (if i ≠ j ∧ groups i = groups j then xtx i j * g i * mu i * mu j else 0) +
       (if i ≠ j ∧ groups i ≠ groups j then xtx i j * g i * g j * mu i * mu j else 0)) =
        contrib xtx groups mu s g i j := by
    intro i j
    unfold contrib
    by_cases hij : i = j
    · subst hij; simp
    · by_cases hg : groups i = groups j <;> simp [hij, hg]
  rw [Finset.sum_congr rfl fun i _ => Finset.sum_congr rfl fun j _ => h i j]

/-! ## The sigmoid and the closed-form group inclusion update
(fit.cpp lines 229-245) -/

/-- Modelled from the spec: the logistic sigmoid used by update_g; the
function itself is declared in fit.h, which is not part of src/.  The
spec calls it "a logistic (sigmoid) transform" mapping the log-odds
into (0,1). -/
noncomputable def sigmoid (x : ℝ) : ℝ := 1 / (1 + Real.exp (-x))

/-- update_g: the closed-form log-odds of the group inclusion
probability, mapped through the sigmoid (fit.cpp lines 229-245).
G and Gc are the index lists produced by arma::find; mk = |G|. -/
noncomputable def update_g (G Gc : List ℕ) (xtx : ℕ → ℕ → ℝ)
    (yx mu s g : ℕ → ℝ) (e_tau lambda w : ℝ) : ℝ :=
  let mk : ℝ := G.length
  let res : ℝ :=
    Real.log (w / (1 - w)) + mk / 2 +
    e_tau * (G.map (fun i => yx i * mu i)).sum +
    0.5 * mk * Real.log (2 * Real.pi) +
    (G.map (fun i => Real.log (s i))).sum -
    mk * Real.log 2 - 0.5 * (mk - 1) * Real.log Real.pi -
    Real.log |Real.Gamma (0.5 * (mk + 1))| +
    mk * Real.log lambda -
    lambda * Real.sqrt ((G.map (fun i => s i ^ 2)).sum + (G.map (fun i => mu i ^ 2)).sum) -
    0.5 * e_tau * (G.map (fun i => xtx i i * s i ^ 2)).sum -
    0.5 * e_tau * (G.map (fun i => (G.map (fun j => mu i * xtx i j * mu j)).sum)).sum -
    e_tau * (G.map (fun i => (Gc.map (fun j => mu i * xtx i j * (g j * mu j))).sum)).sum
  sigmoid res

/-- The sigmoid is strictly positive. -/
theorem sigmoid_pos (x : ℝ) : 0 < sigmoid x := by
  unfold sigmoid
  positivity

/-- The sigmoid is strictly below one. -/
theorem sigmoid_lt_one (x : ℝ) : sigmoid x < 1 := by
  unfold sigmoid
  rw [div_lt_one (by positivity)]
  linarith [Real.exp_pos (-x)]

/-- C3: for every group index pair, every xtx, yx, mu, s, g, e_tau,
lambda and every prior weight w in (0,1), the scalar returned by update_g
lies strictly between 0 and 1, because the closed-form log-odds is mapped
through the logistic sigmoid. -/
theorem update_g_range (G Gc : List ℕ) (xtx : ℕ → ℕ → ℝ)
    (yx mu s g : ℕ → ℝ) (e_tau lambda w : ℝ)
    (_hw0 : 0 < w) (_hw1 : w < 1) :
    0 < update_g G Gc xtx yx mu s g e_tau lambda w ∧
      update_g G Gc xtx yx mu s g e_tau lambda w < 1 := by
  unfold update_g
  exact ⟨sigmoid_pos _, sigmoid_lt_one _⟩

/-- Witness for C3 at a concrete input (one-element group, w = 1/2). -/
theorem update_g_range_witness :
    0 < update_g [0] [1] (fun _ _ => 1) (fun _ => 1) (fun _ => 1)
        (fun _ => 1) (fun _ => 1) 1 1 (1/2) ∧
      update_g [0] [1] (fun _ _ => 1) (fun _ => 1) (fun _ => 1)
        (fun _ => 1) (fun _ => 1) 1 1 (1/2) < 1 :=
  update_g_range [0] [1] (fun _ _ => 1) (fun _ => 1) (fun _ => 1)
    (fun _ => 1) (fun _ => 1) 1 1 (1/2) (by norm_num) (by norm_num)

/-! ## The abstract inner optimiser

ens::L_BFGS::Optimize is external library code: it receives an objective
function with its gradient and a starting point and returns the final
iterate.  Each call site in fit.cpp is embedded by passing the faithful
objective/gradient pair and the faithful starting point to an arbitrary
function of this shape.  Sub-vectors over a group G are lists indexed
positionally (position a holds the coordinate for index G[a]). -/

def OptFn : Type := (List ℝ → ℝ) → (List ℝ → List ℝ) → List ℝ → List ℝ

/-! ## update_mu (fit.cpp lines 99-150) -/

/-- Objective of update_mu_fn::EvaluateWithGradient (fit.cpp 109-114):
0.5·e_tau·mᵗ xtx(G,G) m + e_tau·mᵗ xtx(G,Gc)(g(Gc)∘mu(Gc))
− e_tau·yx(G)ᵗm + lambda·sqrt(s(G)ᵗs(G) + mᵗm). -/
noncomputable def update_mu_val (G Gc : List ℕ) (xtx : ℕ → ℕ → ℝ)
    (yx mu s g : ℕ → ℝ) (e_tau lambda : ℝ) (m : List ℝ) : ℝ :=
  0.5 * e_tau * ((List.range G.length).map (fun a =>
      ((List.range G.length).map (fun b =>
        m.getD a 0 * xtx (G.getD a 0) (G.getD b 0) * m.getD b 0)).sum)).sum +
  e_tau * ((List.range G.length).map (fun a =>
      ((List.range Gc.length).map (fun c =>
        m.getD a 0 * xtx (G.getD a 0) (Gc.getD c 0) *
          (g (Gc.getD c 0) * mu (Gc.getD c 0)))).sum)).sum -
  e_tau * ((List.range G.length).map (fun a => yx (G.getD a 0) * m.getD a 0)).sum +
  lambda * Real.sqrt ((G.map (fun i => s i * s i)).sum + (m.map (fun x => x * x)).sum)

/-- Gradient of update_mu_fn::EvaluateWithGradient (fit.cpp 116-119):
e_tau·xtx(G,G)m + e_tau·xtx(G,Gc)(g(Gc)∘mu(Gc)) − e_tau·yx(G)
+ lambda·m·(s(G)ᵗs(G) + mᵗm)^(−1/2). -/
noncomputable def update_mu_grad (G Gc : List ℕ) (xtx : ℕ → ℕ → ℝ)
    (yx mu s g : ℕ → ℝ) (e_tau lambda : ℝ) (m : List ℝ) : List ℝ :=
  (List.range G.length).map (fun a =>
    e_tau * ((List.range G.length).map (fun b =>
        xtx (G.getD a 0) (G.getD b 0) * m.getD b 0)).sum +
    e_tau * ((List.range Gc.length).map (fun c =>
        xtx (G.getD a 0) (Gc.getD c 0) * (g (Gc.getD c 0) * mu (Gc.getD c 0)))).sum -
    e_tau * yx (G.getD a 0) +
    lambda * m.getD a 0 *
      (Real.sqrt ((G.map (fun i => s i * s i)).sum + (m.map (fun x => x * x)).sum))⁻¹)

/-- update_mu (fit.cpp 137-150): run the optimiser on the group-mean
objective starting from mu(G); the returned sub-vector is written back by
the driver. -/
noncomputable def update_mu (opt : OptFn) (G Gc : List ℕ) (xtx : ℕ → ℕ → ℝ)
    (yx mu s g : ℕ → ℝ) (e_tau lambda : ℝ) : List ℝ :=
  opt (update_mu_val G Gc xtx yx mu s g e_tau lambda)
      (update_mu_grad G Gc xtx yx mu s g e_tau lambda)
      (G.map mu)

/-! ## update_s (fit.cpp lines 178-224) -/

/-- Objective of update_s_fn::EvaluateWithGradient (fit.cpp 185-189): the
argument is u, the scales are s = exp(u):
0.5·e_tau·diag(xtx(G,G))ᵗ(s∘s) − Σ log s + lambda·sqrt(sᵗs + mu(G)ᵗmu(G)). -/
noncomputable def update_s_val (G : List ℕ) (xtx : ℕ → ℕ → ℝ) (mu : ℕ → ℝ)
    (e_tau lambda : ℝ) (u : List ℝ) : ℝ :=
  let sv := u.map Real.exp
  0.5 * e_tau * ((List.range G.length).map (fun a =>
      xtx (G.getD a 0) (G.getD a 0) * (sv.getD a 0 * sv.getD a 0))).sum -
  (sv.map Real.log).sum +
  lambda * Real.sqrt ((sv.map (fun x => x * x)).sum + (G.map (fun i => mu i * mu i)).sum)

/-- Gradient of update_s_fn::EvaluateWithGradient (fit.cpp 195-196),
chain-ruled to u (the trailing factor s is ds/du):
(0.5·e_tau·diag(xtx(G,G))∘s − 1/s + lambda·s·(sᵗs + mu(G)ᵗmu(G))^(−1/2)) ∘ s. -/
noncomputable def update_s_grad (G : List ℕ) (xtx : ℕ → ℕ → ℝ) (mu : ℕ → ℝ)
    (e_tau lambda : ℝ) (u : List ℝ) : List ℝ :=
  let sv := u.map Real.exp
  (List.range G.length).map (fun a =>
    (0.5 * e_tau * xtx (G.getD a 0) (G.getD a 0) * sv.getD a 0 -
     1 / sv.getD a 0 +
     lambda * sv.getD a 0 *
       (Real.sqrt ((sv.map (fun x => x * x)).sum +
         (G.map (fun i => mu i * mu i)).sum))⁻¹) * sv.getD a 0)

/-- update_s (fit.cpp 210-224): optimise over u = log(s(G)) and return
exp(u*); whatever iterate the optimiser produces is passed through exp. -/
noncomputable def update_s (opt : OptFn) (G : List ℕ) (xtx : ℕ → ℕ → ℝ)
    (mu s : ℕ → ℝ) (e_tau lambda : ℝ) : List ℝ :=
  (opt (update_s_val G xtx mu e_tau lambda)
       (update_s_grad G xtx mu e_tau lambda)
       (G.map (fun i => Real.log (s i)))).map Real.exp

/-- C4: for every inner optimiser behaviour and every finite input with a
strictly positive starting s, every entry of the vector returned by
update_s is strictly positive: the optimisation runs over u = log(s(G))
and the result is returned as exp(u*), so positivity is an invariant of
the reparameterisation regardless of what the optimiser does. -/
theorem update_s_pos (opt : OptFn) (G : List ℕ) (xtx : ℕ → ℕ → ℝ)
    (mu s : ℕ → ℝ) (e_tau lambda : ℝ)
    (_hs : ∀ i ∈ G, 0 < s i) :
    ∀ x ∈ update_s opt G xtx mu s e_tau lambda, 0 < x := by
  intro x hx
  unfold update_s at hx
  obtain ⟨u, -, rfl⟩ := List.mem_map.mp hx
  exact Real.exp_pos u

/-- Witness for C4: the identity optimiser, a singleton group, s = 1. -/
theorem update_s_pos_witness :
    0 < Real.exp (Real.log 1) ∧
      Real.exp (Real.log 1) ∈
        update_s (fun _ _ u => u) [0] (fun _ _ => 0) (fun _ => 0) (fun _ => 1) 1 1 := by
  refine ⟨?_, ?_⟩
  · exact update_s_pos (fun _ _ u => u) [0] (fun _ _ => 0) (fun _ => 0) (fun _ => 1) 1 1
      (fun i _ => by norm_num) (Real.exp (Real.log 1))
      (by simp [update_s])
  · simp [update_s]

/-! ## update_a_b (fit.cpp lines 248-329)

R::lgammafn, R::digamma and R::trigamma are external library functions;
they enter the embedding as the parameters lgam, digam, trigam.  The
gradient-exactness theorem assumes exactly their defining relations
(digamma is the derivative of log-gamma, trigamma of digamma). -/

/-- update_a_b_obj (fit.cpp 256-263): the joint objective
f(ta,tb) = ta·log(tb) − lgamma(ta) + (n/2 + ta0 − ta)(log(tb) − digamma(ta))
+ (S/2 + tb0 − tb)(ta/tb). -/
noncomputable def update_a_b_obj (lgam digam : ℝ → ℝ)
    (ta tb ta0 tb0 S n : ℝ) : ℝ :=
  ta * Real.log tb - lgam ta +
    (0.5 * n + ta0 - ta) * (Real.log tb - digam ta) +
    (0.5 * S + tb0 - tb) * (ta / tb)

/-- The u-coordinate gradient written by update_a_b_fn::EvaluateWithGradient
(fit.cpp 285-288), with ta = exp(u) and the trailing factor ta from the
chain rule. -/
noncomputable def update_a_b_dfdu (digam trigam : ℝ → ℝ)
    (ta tb ta0 tb0 S n : ℝ) : ℝ :=
  (Real.log tb - digam ta -
    (Real.log tb - digam ta) -
    (0.5 * n + ta0 - ta) * trigam ta +
    (0.5 * S + tb0 - tb) * (1 / tb)) * ta

/-- The tb-coordinate gradient written by update_a_b_fn::EvaluateWithGradient
(fit.cpp 290-293). -/
noncomputable def update_a_b_dfdb (ta tb ta0 tb0 S n : ℝ) : ℝ :=
  ta / tb +
    (0.5 * n + ta0 - ta) / tb -
    (0.5 * S + tb0 - tb) * (ta / (tb * tb)) -
    ta / tb

/-- The objective as passed to the optimiser (fit.cpp 273-281):
pars = (u, tb) with ta = exp(u). -/
noncomputable def update_a_b_val (lgam digam : ℝ → ℝ) (ta0 tb0 S n : ℝ)
    (pars : List ℝ) : ℝ :=
  update_a_b_obj lgam digam (Real.exp (pars.getD 0 0)) (pars.getD 1 0) ta0 tb0 S n

/-- The gradient as saved by update_a_b_fn (fit.cpp 296-297). -/
noncomputable def update_a_b_gradv (digam trigam : ℝ → ℝ) (ta0 tb0 S n : ℝ)
    (pars : List ℝ) : List ℝ :=
  [update_a_b_dfdu digam trigam (Real.exp (pars.getD 0 0)) (pars.getD 1 0) ta0 tb0 S n,
   update_a_b_dfdb (Real.exp (pars.getD 0 0)) (pars.getD 1 0) ta0 tb0 S n]

/-- update_a_b (fit.cpp 310-329): warm start at (log(tau_a), tau_b),
optimise jointly, return (exp(pars0), pars1). -/
noncomputable def update_a_b (opt : OptFn) (lgam digam trigam : ℝ → ℝ)
    (tau_a tau_b tau_a0 tau_b0 S n : ℝ) : ℝ × ℝ :=
  let pars := opt (update_a_b_val lgam digam tau_a0 tau_b0 S n)
                  (update_a_b_gradv digam trigam tau_a0 tau_b0 S n)
                  [Real.log tau_a, tau_b]
  (Real.exp (pars.getD 0 0), pars.getD 1 0)

/-- C5: at every point with tb ≠ 0 and ta = exp(u), provided digamma is
the derivative of log-gamma at ta and trigamma the derivative of digamma
at ta, the two gradient components written by
update_a_b_fn::EvaluateWithGradient are the exact analytic derivatives of
the objective f: the u-component is d/du of f(exp(u), tb) (the ta-partial
times ta, by the chain rule) and the tb-component is the direct
tb-partial of f(ta, tb). -/
theorem update_a_b_grad_exact (lgam digam trigam : ℝ → ℝ)
    (u tb ta0 tb0 S n : ℝ) (htb : tb ≠ 0)
    (hl : HasDerivAt lgam (digam (Real.exp u)) (Real.exp u))
    (hd : HasDerivAt digam (trigam (Real.exp u)) (Real.exp u)) :
    HasDerivAt (fun v => update_a_b_obj lgam digam (Real.exp v) tb ta0 tb0 S n)
      (update_a_b_dfdu digam trigam (Real.exp u) tb ta0 tb0 S n) u ∧
    HasDerivAt (fun b => update_a_b_obj lgam digam (Real.exp u) b ta0 tb0 S n)
      (update_a_b_dfdb (Real.exp u) tb ta0 tb0 S n) tb := by
  constructor
  · have he : HasDerivAt Real.exp (Real.exp u) u := Real.hasDerivAt_exp u
    have h1 : HasDerivAt (fun v => Real.exp v * Real.log tb)
        (Real.exp u * Real.log tb) u := he.mul_const _
    have h2 : HasDerivAt (fun v => lgam (Real.exp v))
        (digam (Real.exp u) * Real.exp u) u := hl.comp u he
    have h3a : HasDerivAt (fun v => 0.5 * n + ta0 - Real.exp v)
        (0 - Real.exp u) u := (hasDerivAt_const u (0.5 * n + ta0)).sub he
    have h3b : HasDerivAt (fun v => Real.log tb - digam (Real.exp v))
        (0 - trigam (Real.exp u) * Real.exp u) u :=
      (hasDerivAt_const u (Real.log tb)).sub (hd.comp u he)
    have h3 := h3a.mul h3b
    have h4 : HasDerivAt (fun v => (0.5 * S + tb0 - tb) * (Real.exp v / tb))
        ((0.5 * S + tb0 - tb) * (Real.exp u / tb)) u :=
      (he.div_const tb).const_mul _
    have := ((h1.sub h2).add h3).add h4
    convert this using 1
    unfold update_a_b_dfdu
    ring
  · have hlog : HasDerivAt Real.log tb⁻¹ tb := Real.hasDerivAt_log htb
    have h1 : HasDerivAt (fun b => Real.exp u * Real.log b)
        (Real.exp u * tb⁻¹) tb := hlog.const_mul _
    have h2 : HasDerivAt (fun _ : ℝ => lgam (Real.exp u)) 0 tb :=
      hasDerivAt_const tb _
    have h3 : HasDerivAt
        (fun b => (0.5 * n + ta0 - Real.exp u) * (Real.log b - digam (Real.exp u)))
        ((0.5 * n + ta0 - Real.exp u) * (tb⁻¹ - 0)) tb :=
      (hlog.sub (hasDerivAt_const tb _)).const_mul _
    have h4a : HasDerivAt (fun b => 0.5 * S + tb0 - b) (0 - 1) tb :=
      (hasDerivAt_const tb (0.5 * S + tb0)).sub (hasDerivAt_id tb)
    have h4b : HasDerivAt (fun b => Real.exp u / b)
        ((0 * tb - Real.exp u * 1) / tb ^ 2) tb :=
      (hasDerivAt_const tb (Real.exp u)).div (hasDerivAt_id tb) htb
    have h4 := h4a.mul h4b
    have := ((h1.sub h2).add h3).add h4
    convert this using 1
    unfold update_a_b_dfdb
    field_simp
    ring

/-- Witness for C5 at u = 0, tb = 1 with the constant-zero special
functions (whose derivative hypotheses hold trivially). -/
theorem update_a_b_grad_exact_witness :
    HasDerivAt
      (fun v => update_a_b_obj (fun _ => 0) (fun _ => 0) (Real.exp v) 1 0 0 0 0)
      (update_a_b_dfdu (fun _ => 0) (fun _ => 0) (Real.exp 0) 1 0 0 0 0) 0 ∧
    HasDerivAt
      (fun b => update_a_b_obj (fun _ => 0) (fun _ => 0) (Real.exp 0) b 0 0 0 0)
      (update_a_b_dfdb (Real.exp 0) 1 0 0 0 0) 1 :=
  update_a_b_grad_exact (fun _ => 0) (fun _ => 0) (fun _ => 0) 0 1 0 0 0 0
    (by norm_num) (hasDerivAt_const _ _) (hasDerivAt_const _ _)

/-! ## The CAVI driver (fit.cpp lines 4-94)

The fit entry point receives y and X and reads n, p off the matrix; the
embedding carries n and p explicitly alongside the function-encoded data.
The verbose flag only controls printing and Rcpp::checkUserInterrupt is
the host's cooperative cancellation poll; neither affects the returned
state, so neither appears in the embedding. -/

/-- All code external to the repository that fit.cpp calls into:
the three L-BFGS optimiser instances (for mu, for s, and the
(50, 1000)-budget instance for (tau_a, tau_b)), the ELBO estimator
declared in fit.h, and the R special functions. -/
structure FitExt where
  optMu : OptFn
  optS : OptFn
  optAB : OptFn
  elboFn : (ℕ → ℝ) → (ℕ → ℕ → ℝ) → (ℕ → ℕ) → (ℕ → ℝ) → (ℕ → ℝ) → (ℕ → ℝ) →
    ℝ → ℝ → ℝ → ℝ → ℝ → ℕ → ℝ
  lgam : ℝ → ℝ
  digam : ℝ → ℝ
  trigam : ℝ → ℝ

/-- The arguments of fit (fit.cpp 5-8), in source order; n and p are the
dimensions of X (X.n_rows and X.n_cols). -/
structure FitIn where
  n : ℕ
  p : ℕ
  y : ℕ → ℝ
  X : ℕ → ℕ → ℝ
  groups : ℕ → ℕ
  lambda : ℝ
  a0 : ℝ
  b0 : ℝ
  tau_a0 : ℝ
  tau_b0 : ℝ
  mu : ℕ → ℝ
  s : ℕ → ℝ
  g : ℕ → ℝ
  track_elbo : Bool
  track_elbo_every : ℕ
  track_elbo_mcn : ℕ
  niter : ℕ
  tol : ℝ

/-- The mutable state of the outer loop: the three variational vectors,
the two noise-precision hyperparameters and the collected ELBO samples. -/
structure FitState where
  mu : ℕ → ℝ
  s : ℕ → ℝ
  g : ℕ → ℝ
  tau_a : ℝ
  tau_b : ℝ
  elbo : List ℝ

/-- The Rcpp::List returned by fit (fit.cpp 84-93). -/
structure FitResult where
  mu : ℕ → ℝ
  s : ℕ → ℝ
  g : ℕ → ℝ
  tau_a : ℝ
  tau_b : ℝ
  converged : Bool
  iterations : ℕ
  elbo : List ℝ

/-- mu(G) = v assigns the entries of the positional sub-vector v to the
indices listed in G. -/
def writeBack (G : List ℕ) (res : List ℝ) (v : ℕ → ℝ) : ℕ → ℝ :=
  fun j => if j ∈ G then res.getD (G.indexOf j) 0 else v j

/-- One pass of the body of the per-group loop (fit.cpp 36-46) for a
single group value k: G = find(groups == k), Gc = find(groups != k),
then mu(G), s(G) and g(G) are updated in that order, each update reading
the vectors as already modified by the preceding ones. -/
noncomputable def groupUpdate (ext : FitExt) (inp : FitIn) (e_tau : ℝ)
    (st : FitState) (k : ℕ) : FitState :=
  let xtx := xtxOf inp.n inp.X
  let yx := yxOf inp.n inp.y inp.X
  let w := inp.a0 / (inp.a0 + inp.b0)
  let G := (List.range inp.p).filter (fun i => inp.groups i = k)
  let Gc := (List.range inp.p).filter (fun i => inp.groups i ≠ k)
  let mu' := writeBack G
    (update_mu ext.optMu G Gc xtx yx st.mu st.s st.g e_tau inp.lambda) st.mu
  let s' := writeBack G
    (update_s ext.optS G xtx mu' st.s e_tau inp.lambda) st.s
  let tg := update_g G Gc xtx yx mu' s' st.g e_tau inp.lambda w
  ⟨mu', s', fun j => if j ∈ G then tg else st.g j, st.tau_a, st.tau_b, st.elbo⟩

/-- ugroups = arma::unique(groups): the distinct group values, in
ascending order (fit.cpp line 20). -/
def ugroups (inp : FitIn) : List ℕ :=
  (((List.range inp.p).map inp.groups).dedup).mergeSort (· ≤ ·)

/-- The per-group sweep of one outer iteration (fit.cpp 36-46). -/
noncomputable def sweep (ext : FitExt) (inp : FitIn) (e_tau : ℝ)
    (st : FitState) : FitState :=
  (ugroups inp).foldl (groupUpdate ext inp e_tau) st

/-- One outer iteration minus the convergence test (fit.cpp 32-61):
recompute e_tau from the current hyperparameters, sweep all groups,
update (tau_a, tau_b) from S on the post-sweep state, and sample the
ELBO when tracking is on and the iteration index is divisible by the
stride. -/
noncomputable def fitIter (ext : FitExt) (inp : FitIn) (iter : ℕ)
    (st : FitState) : FitState :=
  let e_tau := st.tau_a / st.tau_b
  let st1 := sweep ext inp e_tau st
  let S := compute_S (ytyOf inp.n inp.y) (yxOf inp.n inp.y inp.X)
    (xtxOf inp.n inp.X) inp.groups st1.mu st1.s st1.g inp.p
  let tt := update_a_b ext.optAB ext.lgam ext.digam ext.trigam
    st1.tau_a st1.tau_b inp.tau_a0 inp.tau_b0 S (inp.n : ℝ)
  if inp.track_elbo && (iter % inp.track_elbo_every == 0) then
    ⟨st1.mu, st1.s, st1.g, tt.1, tt.2,
     st1.elbo ++ [ext.elboFn inp.y inp.X inp.groups st1.mu st1.s st1.g
       inp.lambda inp.a0 inp.b0 tt.1 tt.2 inp.track_elbo_mcn]⟩
  else ⟨st1.mu, st1.s, st1.g, tt.1, tt.2, st1.elbo⟩

/-- The state before the first iteration (fit.cpp 20-26): the caller's
mu, s, g; tau_a = tau_a0 and tau_b = tau_b0 (fit accepts no initial
values for them); no ELBO samples. -/
def initState (inp : FitIn) : FitState :=
  ⟨inp.mu, inp.s, inp.g, inp.tau_a0, inp.tau_b0, []⟩

/-- The state after k outer iterations, ignoring the convergence break
(the broken loop visits exactly these states; see fitLoop). -/
noncomputable def iterState (ext : FitExt) (inp : FitIn) : ℕ → FitState
  | 0 => initState inp
  | k + 1 => fitIter ext inp (k + 1) (iterState ext inp k)

/-- L1 distance between two length-p vectors: sum(abs(a - b)). -/
noncomputable def l1diff (p : ℕ) (a b : ℕ → ℝ) : ℝ :=
  ∑ i ∈ Finset.range p, |a i - b i|

/-- The convergence test (fit.cpp 64-66): the end-of-iteration state b is
compared to the snapshot a taken at the start of the same iteration; all
three L1 distances must be below tol. -/
def convTest (p : ℕ) (tol : ℝ) (a b : FitState) : Prop :=
  l1diff p a.mu b.mu < tol ∧ l1diff p a.s b.s < tol ∧ l1diff p a.g b.g < tol

/-- Iteration k (k ≥ 1) satisfies the convergence test: the state after k
iterations is tol-close in L1 to the snapshot after k − 1 iterations. -/
noncomputable def convAt (ext : FitExt) (inp : FitIn) (k : ℕ) : Prop :=
  convTest inp.p inp.tol (iterState ext inp (k - 1)) (iterState ext inp k)

open Classical in
/-- The outer loop (fit.cpp 28-75): fuel is the number of remaining
iterations, iter the 1-based index of the next one.  Exhaustion returns
the current state with converged = false and num_iter = niter; a
successful test breaks immediately with converged = true and
num_iter = iter. -/
noncomputable def fitLoop (ext : FitExt) (inp : FitIn) :
    ℕ → ℕ → FitState → FitState × Bool × ℕ
  | 0, _, st => (st, false, inp.niter)
  | fuel + 1, iter, st =>
    let st' := fitIter ext inp iter st
    if convTest inp.p inp.tol st st' then (st', true, iter)
    else fitLoop ext inp fuel (iter + 1) st'

/-- fit (fit.cpp 4-94): run the loop from the caller-initialised state,
take the final ELBO sample whenever tracking is enabled (fit.cpp 77-82),
and package the result. -/
noncomputable def fit (ext : FitExt) (inp : FitIn) : FitResult :=
  let r := fitLoop ext inp inp.niter 1 (initState inp)
  let stF := r.1
  let elboF := if inp.track_elbo then
      stF.elbo ++ [ext.elboFn inp.y inp.X inp.groups stF.mu stF.s stF.g
        inp.lambda inp.a0 inp.b0 stF.tau_a stF.tau_b inp.track_elbo_mcn]
    else stF.elbo
  ⟨stF.mu, stF.s, stF.g, stF.tau_a, stF.tau_b, r.2.1, r.2.2, elboF⟩

/-! ## Structural lemmas about the sweep and the loop -/

lemma groupUpdate_elbo (ext : FitExt) (inp : FitIn) (e : ℝ) (st : FitState)
    (k : ℕ) : (groupUpdate ext inp e st k).elbo = st.elbo := rfl

lemma sweep_elbo (ext : FitExt) (inp : FitIn) (e : ℝ) (st : FitState) :
    (sweep ext inp e st).elbo = st.elbo := by
  unfold sweep
  generalize ugroups inp = L
  induction L generalizing st with
  | nil => rfl
  | cons k L ih => rw [List.foldl_cons, ih, groupUpdate_elbo]

lemma groupUpdate_g_apply (ext : FitExt) (inp : FitIn) (e : ℝ) (st : FitState)
    (k j : ℕ) (hj : ¬ (j < inp.p ∧ inp.groups j = k)) :
    (groupUpdate ext inp e st k).g j = st.g j := by
  unfold groupUpdate
  dsimp only
  rw [if_neg]
  simpa [List.mem_filter, List.mem_range] using hj

lemma foldl_groupUpdate_g_preserved (ext : FitExt) (inp : FitIn) (e : ℝ)
    (L : List ℕ) (st : FitState) (j : ℕ) (hj : inp.groups j ∉ L) :
    ((L.foldl (groupUpdate ext inp e) st).g) j = st.g j := by
  induction L generalizing st with
  | nil => rfl
  | cons k L ih =>
    rw [List.foldl_cons, ih _ (fun h => hj (List.mem_cons_of_mem _ h))]
    exact groupUpdate_g_apply ext inp e st k j
      (fun h => hj (h.2 ▸ List.mem_cons_self _ _))

lemma foldl_groupUpdate_g_const (ext : FitExt) (inp : FitIn) (e : ℝ)
    (L : List ℕ) (st : FitState) (i j : ℕ)
    (hi : i < inp.p) (hj : j < inp.p) (hk : inp.groups i = inp.groups j)
    (hmem : inp.groups i ∈ L) :
    ((L.foldl (groupUpdate ext inp e) st).g) i =
      ((L.foldl (groupUpdate ext inp e) st).g) j := by
  induction L generalizing st with
  | nil => exact absurd hmem (List.not_mem_nil _)
  | cons k L ih =>
    rw [List.foldl_cons]
    by_cases hmem' : inp.groups i ∈ L
    · exact ih _ hmem'
    · have hik : inp.groups i = k := by
        rcases List.mem_cons.mp hmem with h | h
        · exact h
        · exact absurd h hmem'
      rw [foldl_groupUpdate_g_preserved ext inp e L _ i (hik ▸ hmem'),
          foldl_groupUpdate_g_preserved ext inp e L _ j (by rw [← hk]; exact hik ▸ hmem')]
      unfold groupUpdate
      dsimp only
      rw [if_pos (by simp [List.mem_filter, List.mem_range]; exact ⟨hi, hik⟩),
          if_pos (by simp [List.mem_filter, List.mem_range]; exact ⟨hj, hk ▸ hik⟩)]

lemma fitIter_g (ext : FitExt) (inp : FitIn) (iter : ℕ) (st : FitState) :
    (fitIter ext inp iter st).g = (sweep ext inp (st.tau_a / st.tau_b) st).g := by
  unfold fitIter
  dsimp only
  cases h : inp.track_elbo && (iter % inp.track_elbo_every == 0) <;> simp [h]

lemma fitIter_g_const (ext : FitExt) (inp : FitIn) (iter : ℕ) (st : FitState)
    (i j : ℕ) (hi : i < inp.p) (hj : j < inp.p)
    (hk : inp.groups i = inp.groups j) :
    (fitIter ext inp iter st).g i = (fitIter ext inp iter st).g j := by
  rw [fitIter_g]
  unfold sweep
  refine foldl_groupUpdate_g_const ext inp _ _ st i j hi hj hk ?_
  have h1 : inp.groups i ∈ (List.range inp.p).map inp.groups :=
    List.mem_map.mpr ⟨i, List.mem_range.mpr hi, rfl⟩
  exact (List.mergeSort_perm _ _).mem_iff.mpr (List.mem_dedup.mpr h1)

lemma fitIter_elbo_length (ext : FitExt) (inp : FitIn) (iter : ℕ)
    (st : FitState) :
    (fitIter ext inp iter st).elbo.length = st.elbo.length +
      (if inp.track_elbo && (iter % inp.track_elbo_every == 0) then 1 else 0) := by
  unfold fitIter
  dsimp only
  cases h : inp.track_elbo && (iter % inp.track_elbo_every == 0) <;>
    simp [h, sweep_elbo]

lemma iterState_elbo_length (ext : FitExt) (inp : FitIn) (k : ℕ) :
    (iterState ext inp k).elbo.length =
      if inp.track_elbo = true then k / inp.track_elbo_every else 0 := by
  induction k with
  | zero => cases htr : inp.track_elbo <;> simp [iterState, initState, htr]
  | succ m ih =>
    have hstep : iterState ext inp (m + 1) =
        fitIter ext inp (m + 1) (iterState ext inp m) := rfl
    rw [hstep, fitIter_elbo_length, ih]
    cases htr : inp.track_elbo with
    | false => simp
    | true =>
      simp only [Bool.true_and, if_true]
      rw [Nat.succ_div]
      by_cases hdvd : inp.track_elbo_every ∣ m + 1
      · have hmod : (m + 1) % inp.track_elbo_every = 0 :=
          Nat.dvd_iff_mod_eq_zero.mp hdvd
        simp [hmod, hdvd]
      · have hmod : ¬ (m + 1) % inp.track_elbo_every = 0 :=
          fun h => hdvd (Nat.dvd_iff_mod_eq_zero.mpr h)
        simp [hmod, hdvd]

open Classical in
lemma fitLoop_succ (ext : FitExt) (inp : FitIn) (fuel iter : ℕ)
    (st : FitState) :
    fitLoop ext inp (fuel + 1) iter st =
      if convTest inp.p inp.tol st (fitIter ext inp iter st) then
        (fitIter ext inp iter st, true, iter)
      else fitLoop ext inp fuel (iter + 1) (fitIter ext inp iter st) := rfl

/-- The loop characterisation: starting before iteration m + 1 with the
fuel that remains, either some iteration K in the remaining range is the
first to satisfy the convergence test, in which case the loop stops there
with converged = true and num_iter = K, or no remaining iteration
satisfies it and the loop exhausts with converged = false and
num_iter = niter. -/
lemma fitLoop_master (ext : FitExt) (inp : FitIn) :
    ∀ fuel m : ℕ, m + fuel = inp.niter →
    (∃ K, m + 1 ≤ K ∧ K ≤ inp.niter ∧ convAt ext inp K ∧
        (∀ j, m + 1 ≤ j → j < K → ¬ convAt ext inp j) ∧
        fitLoop ext inp fuel (m + 1) (iterState ext inp m) =
          (iterState ext inp K, true, K)) ∨
    ((∀ j, m + 1 ≤ j → j ≤ inp.niter → ¬ convAt ext inp j) ∧
        fitLoop ext inp fuel (m + 1) (iterState ext inp m) =
          (iterState ext inp inp.niter, false, inp.niter)) := by
  intro fuel
  induction fuel with
  | zero =>
    intro m hm
    right
    refine ⟨fun j hj1 hj2 => absurd (le_trans hj1 hj2) (by omega), ?_⟩
    have hmn : m = inp.niter := by omega
    subst hmn
    rfl
  | succ f ih =>
    intro m hm
    have hstep : fitIter ext inp (m + 1) (iterState ext inp m) =
        iterState ext inp (m + 1) := rfl
    have hconv : convTest inp.p inp.tol (iterState ext inp m)
        (iterState ext inp (m + 1)) ↔ convAt ext inp (m + 1) := Iff.rfl
    rw [fitLoop_succ, hstep]
    by_cases hc : convAt ext inp (m + 1)
    · left
      exact ⟨m + 1, le_refl _, by omega, hc,
        fun j hj1 hj2 => absurd (lt_of_le_of_lt hj1 hj2) (lt_irrefl _),
        by rw [if_pos (hconv.mpr hc)]⟩
    · rw [if_neg (fun h => hc (hconv.mp h))]
      rcases ih (m + 1) (by omega) with ⟨K, hK1, hK2, hcK, hmin, heq⟩ | ⟨hno, heq⟩
      · left
        refine ⟨K, by omega, hK2, hcK, ?_, heq⟩
        intro j hj1 hj2
        rcases Nat.lt_or_ge j (m + 2) with h | h
        · have : j = m + 1 := by omega
          subst this; exact hc
        · exact hmin j h hj2
      · right
        refine ⟨?_, heq⟩
        intro j hj1 hj2
        rcases Nat.lt_or_ge j (m + 2) with h | h
        · have : j = m + 1 := by omega
          subst this; exact hc
        · exact hno j h hj2

/-- Every run: the loop's final state is the iterate at the reported
iteration count, and that count is the iteration budget unless the test
fired inside the range. -/
lemma fit_run (ext : FitExt) (inp : FitIn) :
    ∃ K, (fitLoop ext inp inp.niter 1 (initState inp)).1 = iterState ext inp K ∧
      (fitLoop ext inp inp.niter 1 (initState inp)).2.2 = K ∧
      (K = inp.niter ∨ (1 ≤ K ∧ K ≤ inp.niter)) := by
  have h0 : initState inp = iterState ext inp 0 := rfl
  rcases fitLoop_master ext inp inp.niter 0 (by omega) with
    ⟨K, hK1, hK2, -, -, heq⟩ | ⟨-, heq⟩
  · exact ⟨K, by rw [h0, heq], by rw [h0, heq], Or.inr ⟨hK1, hK2⟩⟩
  · exact ⟨inp.niter, by rw [h0, heq], by rw [h0, heq], Or.inl rfl⟩

/-! ## Concrete instantiations used by witnesses -/

/-- A trivial external environment: optimisers that return their starting
point unchanged, a zero ELBO estimator and zero special functions. -/
def extId : FitExt :=
  ⟨fun _ _ v => v, fun _ _ v => v, fun _ _ v => v,
   fun _ _ _ _ _ _ _ _ _ _ _ _ => 0, fun _ => 0, fun _ => 0, fun _ => 0⟩

/-- n = p = 1, one group, one iteration, tol = 0 (the L1 test can never
pass at a zero tolerance). -/
def inpW1 : FitIn :=
  ⟨1, 1, fun _ => 0, fun _ _ => 0, fun _ => 0, 1, 1, 1, 1, 1,
   fun _ => 0, fun _ => 1, fun _ => 0, false, 1, 0, 1, 0⟩

/-- n = p = 1, tracking on with stride 1 and a zero iteration budget. -/
def inpW8 : FitIn :=
  ⟨1, 1, fun _ => 0, fun _ _ => 0, fun _ => 0, 1, 1, 1, 1, 1,
   fun _ => 0, fun _ => 1, fun _ => 0, true, 1, 0, 0, 1⟩

/-- n = 1, p = 2 with both coefficients in one group, one iteration. -/
def inpW9 : FitIn :=
  ⟨1, 2, fun _ => 0, fun _ _ => 0, fun _ => 0, 1, 1, 1, 1, 1,
   fun _ => 0, fun _ => 1, fun _ => 0, false, 1, 0, 1, 0⟩

/-- n = p = 1, tracking off, zero iteration budget. -/
def inpW10 : FitIn :=
  ⟨1, 1, fun _ => 0, fun _ _ => 0, fun _ => 0, 1, 1, 1, 1, 1,
   fun _ => 0, fun _ => 1, fun _ => 0, false, 1, 0, 0, 1⟩

/-! ## C1: the convergence protocol of the outer loop -/

/-- C1: the driver declares convergence exactly when, comparing the
end-of-iteration state to the snapshot taken at the start of that same
iteration, the three L1 distances on mu, s and g are all below tol; at
the first such iteration K it stops immediately with converged = true and
iterations = K, and if no iteration in 1..niter passes the test it returns
converged = false with iterations = niter (non-convergence is reported
through the flag, never thrown — fit is a total function). -/
theorem fit_convergence (ext : FitExt) (inp : FitIn) :
    ((fit ext inp).converged = true ↔
      ∃ K, 1 ≤ K ∧ K ≤ inp.niter ∧ convAt ext inp K) ∧
    (∀ K, 1 ≤ K → K ≤ inp.niter → convAt ext inp K →
      (∀ j, 1 ≤ j → j < K → ¬ convAt ext inp j) →
      (fit ext inp).converged = true ∧ (fit ext inp).iterations = K) ∧
    ((∀ j, 1 ≤ j → j ≤ inp.niter → ¬ convAt ext inp j) →
      (fit ext inp).converged = false ∧ (fit ext inp).iterations = inp.niter) := by
  have hcv : (fit ext inp).converged =
      (fitLoop ext inp inp.niter 1 (iterState ext inp 0)).2.1 := rfl
  have hit : (fit ext inp).iterations =
      (fitLoop ext inp inp.niter 1 (iterState ext inp 0)).2.2 := rfl
  rcases fitLoop_master ext inp inp.niter 0 (by omega) with
    ⟨K, hK1, hK2, hcK, hmin, heq⟩ | ⟨hno, heq⟩
  · have hcv' : (fit ext inp).converged = true := by rw [hcv, heq]
    have hit' : (fit ext inp).iterations = K := by rw [hit, heq]
    refine ⟨⟨fun _ => ⟨K, hK1, hK2, hcK⟩, fun _ => hcv'⟩, ?_, ?_⟩
    · intro K' h1 h2 hcK' hmin'
      have hKK : K' = K := by
        by_contra hne
        rcases Nat.lt_or_ge K' K with h | h
        · exact hmin K' h1 h hcK'
        · exact hmin' K hK1 (by omega) hcK
      subst hKK
      exact ⟨hcv', hit'⟩
    · intro hno'
      exact absurd hcK (hno' K hK1 hK2)
  · have hcv' : (fit ext inp).converged = false := by rw [hcv, heq]
    have hit' : (fit ext inp).iterations = inp.niter := by rw [hit, heq]
    refine ⟨⟨fun h => ?_, fun h => ?_⟩, ?_, ?_⟩
    · rw [hcv'] at h; exact absurd h (by simp)
    · obtain ⟨K, h1, h2, hcK⟩ := h
      exact absurd hcK (hno K h1 h2)
    · intro K' h1 h2 hcK' _
      exact absurd hcK' (hno K' h1 h2)
    · intro _
      exact ⟨hcv', hit'⟩

/-- Witness for C1: at tol = 0 the test can never pass (L1 distances are
nonnegative), so a 1-iteration run exhausts with converged = false and
iterations = 1. -/
theorem fit_convergence_witness :
    (fit extId inpW1).converged = false ∧ (fit extId inpW1).iterations = 1 := by
  refine (fit_convergence extId inpW1).2.2 ?_
  intro j _ _ hc
  have h : (0:ℝ) ≤ l1diff inpW1.p (iterState extId inpW1 (j - 1)).mu
      (iterState extId inpW1 j).mu :=
    Finset.sum_nonneg fun _ _ => abs_nonneg _
  exact absurd hc.1 (not_lt.mpr h)

/-! ## C8: the length of the returned ELBO trace -/

/-- C8 counterexample: with tracking enabled and a zero iteration budget
the loop never runs (iterations = 0), yet the returned ELBO list holds
one sample — the final post-loop sample is taken whenever tracking is
enabled, not only when the loop ran. -/
theorem fit_elbo_final_cex :
    (fit extId inpW8).iterations = 0 ∧ (fit extId inpW8).elbo.length = 1 :=
  ⟨rfl, rfl⟩

/-- C8 (amended): with tracking enabled and stride t ≥ 1, the ELBO list
holds one in-loop sample for each executed iteration index divisible by
t — floor(iterations/t) samples — plus one final post-loop sample taken
unconditionally (even when the loop never ran); with tracking disabled
the list is empty. -/
theorem fit_elbo_count (ext : FitExt) (inp : FitIn)
    (_ht : 1 ≤ inp.track_elbo_every) :
    (inp.track_elbo = true →
      (fit ext inp).elbo.length =
        (fit ext inp).iterations / inp.track_elbo_every + 1) ∧
    (inp.track_elbo = false → (fit ext inp).elbo = []) := by
  obtain ⟨K, hst, hnum, -⟩ := fit_run ext inp
  have hit : (fit ext inp).iterations =
      (fitLoop ext inp inp.niter 1 (initState inp)).2.2 := rfl
  constructor
  · intro htr
    have hl : (fit ext inp).elbo.length =
        (fitLoop ext inp inp.niter 1 (initState inp)).1.elbo.length + 1 := by
      unfold fit
      dsimp only
      rw [htr]
      simp
    rw [hl, hst, iterState_elbo_length, htr, if_pos rfl, hit, hnum]
  · intro htr
    have hl : (fit ext inp).elbo =
        (fitLoop ext inp inp.niter 1 (initState inp)).1.elbo := by
      unfold fit
      dsimp only
      rw [htr]
      simp
    rw [hl, hst]
    have hlen := iterState_elbo_length ext inp K
    rw [htr] at hlen
    simp only [Bool.false_eq_true, if_false] at hlen
    exact List.eq_nil_of_length_eq_zero hlen

/-- Witness for C8 at tracking on, stride 1, zero iterations:
one final sample, length 0/1 + 1. -/
theorem fit_elbo_count_witness :
    (fit extId inpW8).elbo.length = (fit extId inpW8).iterations / 1 + 1 :=
  (fit_elbo_count extId inpW8 (le_refl 1)).1 rfl

/-! ## C9: g is constant within each group after every sweep -/

/-- C9: every group's inclusion update writes the single scalar returned
by update_g to every index of the group, so after any run that executed
at least one iteration (every group is visited once per sweep, and
nothing after the sweep touches g) the returned g is constant on each
group: groups i = groups j implies g i = g j. -/
theorem fit_g_constant (ext : FitExt) (inp : FitIn) (hn : 1 ≤ inp.niter)
    (i j : ℕ) (hi : i < inp.p) (hj : j < inp.p)
    (hk : inp.groups i = inp.groups j) :
    (fit ext inp).g i = (fit ext inp).g j := by
  obtain ⟨K, hst, -, hKr⟩ := fit_run ext inp
  have hg : (fit ext inp).g =
      (fitLoop ext inp inp.niter 1 (initState inp)).1.g := rfl
  rw [hg, hst]
  have hK1 : 1 ≤ K := by
    rcases hKr with h | h
    · omega
    · exact h.1
  obtain ⟨m, rfl⟩ : ∃ m, K = m + 1 := ⟨K - 1, by omega⟩
  exact fitIter_g_const ext inp (m + 1) (iterState ext inp m) i j hi hj hk

/-- Witness for C9: a two-coefficient single group after one iteration. -/
theorem fit_g_constant_witness :
    (fit extId inpW9).g 0 = (fit extId inpW9).g 1 :=
  fit_g_constant extId inpW9 (le_refl 1) 0 1 (by decide) (by decide) rfl

/-! ## C10: no caller-supplied tau state; the zero-iteration run -/

/-- C10: fit accepts no initial tau_a/tau_b (they are initialised to
tau_a0 and tau_b0, so the first iteration runs at
e_tau = tau_a0/tau_b0); with niter = 0 the loop body never runs and fit
returns the caller's mu, s, g unchanged, tau_a = tau_a0,
tau_b = tau_b0, converged = false, iterations = 0, and — when tracking
is enabled — still appends the one final ELBO sample. -/
theorem fit_zero_iterations (ext : FitExt) (inp : FitIn) (hn : inp.niter = 0) :
    (fit ext inp).mu = inp.mu ∧ (fit ext inp).s = inp.s ∧
      (fit ext inp).g = inp.g ∧ (fit ext inp).tau_a = inp.tau_a0 ∧
      (fit ext inp).tau_b = inp.tau_b0 ∧
      (fit ext inp).converged = false ∧ (fit ext inp).iterations = 0 ∧
      (fit ext inp).elbo = (if inp.track_elbo then
          [ext.elboFn inp.y inp.X inp.groups inp.mu inp.s inp.g inp.lambda
            inp.a0 inp.b0 inp.tau_a0 inp.tau_b0 inp.track_elbo_mcn]
        else []) := by
  have h0 : fitLoop ext inp inp.niter 1 (initState inp) =
      (initState inp, false, inp.niter) := by
    conv_lhs => rw [hn]
    rfl
  unfold fit
  dsimp only
  rw [h0, hn]
  refine ⟨rfl, rfl, rfl, rfl, rfl, rfl, rfl, ?_⟩
  cases inp.track_elbo <;> simp [initState]

/-- Witness for C10 at a concrete zero-budget input. -/
theorem fit_zero_iterations_witness :
    (fit extId inpW10).mu = inpW10.mu ∧ (fit extId inpW10).s = inpW10.s ∧
      (fit extId inpW10).g = inpW10.g ∧
      (fit extId inpW10).tau_a = inpW10.tau_a0 ∧
      (fit extId inpW10).tau_b = inpW10.tau_b0 ∧
      (fit extId inpW10).converged = false ∧
      (fit extId inpW10).iterations = 0 ∧
      (fit extId inpW10).elbo = (if inpW10.track_elbo then
          [extId.elboFn inpW10.y inpW10.X inpW10.groups inpW10.mu inpW10.s
            inpW10.g inpW10.lambda inpW10.a0 inpW10.b0 inpW10.tau_a0
            inpW10.tau_b0 inpW10.track_elbo_mcn]
        else []) :=
  fit_zero_iterations extId inpW10 rfl

/-! ## C6: input validation (spec-modelled)

fit.cpp itself contains no validation code: the checks the spec requires
live in the host-side wrapper of the repository, which is not under
src/.  They are modelled here from the spec's words and composed with the
embedded fit. -/

/-- The raw, list-encoded arguments as the host receives them (the list
lengths carry the dimensions the validator must check). -/
structure FitRaw where
  y : List ℝ
  X : List (List ℝ)
  groups : List ℕ
  lambda : ℝ
  a0 : ℝ
  b0 : ℝ
  tau_a0 : ℝ
  tau_b0 : ℝ
  mu : List ℝ
  s : List ℝ
  g : List ℝ
  track_elbo : Bool
  track_elbo_every : ℕ
  track_elbo_mcn : ℕ
  niter : ℕ
  tol : ℝ

/-- Modelled from the spec: the input-validation predicate of the
host-side wrapper (not in src/src/fit.cpp).  Section 7 of the spec
rejects exactly: non-positive s entries at start, empty groups, and
mismatched vector lengths. -/
def ValidInput (r : FitRaw) : Prop :=
  r.X.length = r.y.length ∧
  (∀ row ∈ r.X, row.length = r.groups.length) ∧
  r.mu.length = r.groups.length ∧
  r.s.length = r.groups.length ∧
  r.g.length = r.groups.length ∧
  (∀ x ∈ r.s, 0 < x) ∧
  r.groups ≠ []

/-- Decode the raw arguments into the function-encoded fit input. -/
def toFitIn (r : FitRaw) : FitIn :=
  ⟨r.y.length, r.groups.length,
   fun k => r.y.getD k 0, fun k i => (r.X.getD k []).getD i 0,
   fun i => r.groups.getD i 0,
   r.lambda, r.a0, r.b0, r.tau_a0, r.tau_b0,
   fun i => r.mu.getD i 0, fun i => r.s.getD i 0, fun i => r.g.getD i 0,
   r.track_elbo, r.track_elbo_every, r.track_elbo_mcn, r.niter, r.tol⟩

open Classical in
/-- Modelled from the spec: the checked entry point — validation runs
before anything else, and an invalid input aborts the run before the
first iteration with no state ever created or mutated. -/
noncomputable def fitChecked (ext : FitExt) (r : FitRaw) :
    Except String FitResult :=
  if ValidInput r then .ok (fit ext (toFitIn r)) else .error "invalid input"

/-- C6: a call whose inputs are invalid — a non-positive entry in the
initial s, an empty group structure, or mismatched vector lengths — is
rejected before the first iteration starts (the error branch never
invokes fit, so no state is mutated), and only such input-validation
failures abort the run: every valid input runs fit to completion and
returns its result. -/
theorem fitChecked_validation (ext : FitExt) (r : FitRaw) :
    (¬ ValidInput r → fitChecked ext r = .error "invalid input") ∧
    (ValidInput r → fitChecked ext r = .ok (fit ext (toFitIn r))) := by
  constructor
  · intro h
    unfold fitChecked
    rw [if_neg h]
  · intro h
    unfold fitChecked
    rw [if_pos h]

/-- Witness for C6: an input whose initial s contains a non-positive
entry is rejected. -/
theorem fitChecked_validation_witness :
    fitChecked extId
      ⟨[0], [[0]], [0], 1, 1, 1, 1, 1, [0], [-1], [0], false, 1, 0, 1, 0⟩ =
      .error "invalid input" := by
  refine (fitChecked_validation extId _).1 ?_
  intro h
  have hs := h.2.2.2.2.2.1 (-1) (by simp)
  norm_num at hs

/-! ## C7: sign of compute_S -/

/-- C7 counterexample: with X the 1×2 all-ones matrix, y = 0, both
columns in one group, mu = (1, −3), s = 0 and g = (1, 0) — every entry
of g in [0,1] — compute_S on the derived yty, yx, xtx evaluates to −2,
which is negative: without g being constant within the group the
expected-squared-residual reading fails and the value can drop below
zero. -/
theorem compute_S_nonneg_cex :
    (∀ i : ℕ, 0 ≤ (if i = 0 then (1:ℝ) else 0) ∧ (if i = 0 then (1:ℝ) else 0) ≤ 1) ∧
    compute_S (ytyOf 1 (fun _ => 0)) (yxOf 1 (fun _ => 0) (fun _ _ => 1))
      (xtxOf 1 (fun _ _ => 1)) (fun _ => 0)
      (fun i => if i = 0 then 1 else -3) (fun _ => 0)
      (fun i => if i = 0 then 1 else 0) 2 < 0 := by
  constructor
  · intro i
    by_cases h : i = 0 <;> simp [h]
  · norm_num [compute_S, ytyOf, yxOf, xtxOf, Finset.sum_range_succ]

lemma sum_sq_expand (n : ℕ) (X : ℕ → ℕ → ℝ) (v : ℕ → ℝ) (T : Finset ℕ) :
    ∑ i ∈ T, ∑ j ∈ T, xtxOf n X i j * (v i * v j)
      = ∑ k ∈ Finset.range n, (∑ i ∈ T, v i * X k i) ^ 2 := by
  have h1 : ∀ i j : ℕ, xtxOf n X i j * (v i * v j)
      = ∑ k ∈ Finset.range n, (v i * X k i) * (v j * X k j) := by
    intro i j
    unfold xtxOf
    rw [Finset.sum_mul]
    exact Finset.sum_congr rfl fun k _ => by ring
  calc ∑ i ∈ T, ∑ j ∈ T, xtxOf n X i j * (v i * v j)
      = ∑ i ∈ T, ∑ j ∈ T, ∑ k ∈ Finset.range n, (v i * X k i) * (v j * X k j) :=
        Finset.sum_congr rfl fun i _ => Finset.sum_congr rfl fun j _ => h1 i j
    _ = ∑ i ∈ T, ∑ k ∈ Finset.range n, ∑ j ∈ T, (v i * X k i) * (v j * X k j) :=
        Finset.sum_congr rfl fun i _ => Finset.sum_comm
    _ = ∑ k ∈ Finset.range n, ∑ i ∈ T, ∑ j ∈ T, (v i * X k i) * (v j * X k j) :=
        Finset.sum_comm
    _ = ∑ k ∈ Finset.range n, (∑ i ∈ T, v i * X k i) * (∑ j ∈ T, v j * X k j) :=
        Finset.sum_congr rfl fun k _ =>
          (Finset.sum_mul_sum _ _ _ _).symm
    _ = ∑ k ∈ Finset.range n, (∑ i ∈ T, v i * X k i) ^ 2 :=
        Finset.sum_congr rfl fun k _ => (sq _).symm

lemma sum_residual_sq_expand (n p : ℕ) (X : ℕ → ℕ → ℝ) (y : ℕ → ℝ)
    (a : ℕ → ℝ) :
    ∑ k ∈ Finset.range n, (y k - ∑ i ∈ Finset.range p, a i * X k i) ^ 2
      = ytyOf n y - 2 * (∑ i ∈ Finset.range p, yxOf n y X i * a i)
        + ∑ i ∈ Finset.range p, ∑ j ∈ Finset.range p,
            xtxOf n X i j * (a i * a j) := by
  have h1 : ∀ k : ℕ, (y k - ∑ i ∈ Finset.range p, a i * X k i) ^ 2
      = y k * y k - 2 * ∑ i ∈ Finset.range p, a i * (y k * X k i)
        + (∑ i ∈ Finset.range p, a i * X k i) ^ 2 := by
    intro k
    have h2 : y k * ∑ i ∈ Finset.range p, a i * X k i
        = ∑ i ∈ Finset.range p, a i * (y k * X k i) := by
      rw [Finset.mul_sum]
      exact Finset.sum_congr rfl fun i _ => by ring
    rw [← h2]
    ring
  calc ∑ k ∈ Finset.range n, (y k - ∑ i ∈ Finset.range p, a i * X k i) ^ 2
      = ∑ k ∈ Finset.range n, (y k * y k
          - 2 * ∑ i ∈ Finset.range p, a i * (y k * X k i)
          + (∑ i ∈ Finset.range p, a i * X k i) ^ 2) :=
        Finset.sum_congr rfl fun k _ => h1 k
    _ = ((∑ k ∈ Finset.range n, y k * y k)
          - ∑ k ∈ Finset.range n, 2 * ∑ i ∈ Finset.range p, a i * (y k * X k i))
        + ∑ k ∈ Finset.range n, (∑ i ∈ Finset.range p, a i * X k i) ^ 2 := by
        rw [Finset.sum_add_distrib, Finset.sum_sub_distrib]
    _ = ytyOf n y - 2 * (∑ i ∈ Finset.range p, yxOf n y X i * a i)
        + ∑ i ∈ Finset.range p, ∑ j ∈ Finset.range p,
            xtxOf n X i j * (a i * a j) := by
        have hmid : (∑ k ∈ Finset.range n,
            2 * ∑ i ∈ Finset.range p, a i * (y k * X k i))
            = 2 * ∑ i ∈ Finset.range p, yxOf n y X i * a i := by
          rw [← Finset.mul_sum]
          congr 1
          rw [Finset.sum_comm]
          refine Finset.sum_congr rfl fun i _ => ?_
          unfold yxOf
          rw [Finset.sum_mul]
          exact Finset.sum_congr rfl fun k _ => by ring
        rw [sum_sq_expand n X a (Finset.range p), hmid]
        rfl

lemma sum_ite_group_nonneg (n p : ℕ) (X : ℕ → ℕ → ℝ) (groups : ℕ → ℕ)
    (mu g : ℕ → ℝ)
    (hg : ∀ i, i < p → 0 ≤ g i ∧ g i ≤ 1)
    (hgc : ∀ i j, i < p → j < p → groups i = groups j → g i = g j) :
    0 ≤ ∑ i ∈ Finset.range p, ∑ j ∈ Finset.range p,
      if groups i = groups j then
        xtxOf n X i j * (g i * (1 - g j)) * (mu i * mu j) else 0 := by
  have hstep1 : ∀ i : ℕ, (∑ j ∈ Finset.range p,
      if groups i = groups j then
        xtxOf n X i j * (g i * (1 - g j)) * (mu i * mu j) else 0)
      = ∑ j ∈ (Finset.range p).filter (fun j => groups j = groups i),
          xtxOf n X i j * (g i * (1 - g j)) * (mu i * mu j) := by
    intro i
    rw [Finset.sum_filter]
    exact Finset.sum_congr rfl fun j _ => by
      by_cases h : groups j = groups i
      · rw [if_pos h, if_pos h.symm]
      · rw [if_neg h, if_neg (fun hh => h hh.symm)]
  rw [Finset.sum_congr rfl fun i _ => hstep1 i,
    ← Finset.sum_fiberwise_of_maps_to
      (fun x hx => Finset.mem_image_of_mem groups hx)
      (fun i => ∑ j ∈ (Finset.range p).filter (fun j => groups j = groups i),
        xtxOf n X i j * (g i * (1 - g j)) * (mu i * mu j))]
  refine Finset.sum_nonneg fun u hu => ?_
  obtain ⟨i0, hi0R, hi0⟩ := Finset.mem_image.mp hu
  have hinner : ∀ i ∈ (Finset.range p).filter (fun i => groups i = u),
      (∑ j ∈ (Finset.range p).filter (fun j => groups j = groups i),
        xtxOf n X i j * (g i * (1 - g j)) * (mu i * mu j))
      = ∑ j ∈ (Finset.range p).filter (fun j => groups j = u),
          xtxOf n X i j * (g i * (1 - g j)) * (mu i * mu j) := by
    intro i hi
    rw [(Finset.mem_filter.mp hi).2]
  rw [Finset.sum_congr rfl hinner]
  have hgeq : ∀ i ∈ (Finset.range p).filter (fun j => groups j = u), g i = g i0 := by
    intro i hi
    obtain ⟨hiR, hgi⟩ := Finset.mem_filter.mp hi
    exact hgc i i0 (Finset.mem_range.mp hiR) (Finset.mem_range.mp hi0R)
      (by rw [hgi, hi0])
  have hkey : (∑ i ∈ (Finset.range p).filter (fun j => groups j = u),
      ∑ j ∈ (Finset.range p).filter (fun j => groups j = u),
        xtxOf n X i j * (g i * (1 - g j)) * (mu i * mu j))
      = (g i0 * (1 - g i0)) * ∑ k ∈ Finset.range n,
          (∑ i ∈ (Finset.range p).filter (fun j => groups j = u), mu i * X k i) ^ 2 := by
    rw [← sum_sq_expand n X mu ((Finset.range p).filter (fun j => groups j = u)),
      Finset.mul_sum]
    refine Finset.sum_congr rfl fun i hi => ?_
    rw [Finset.mul_sum]
    refine Finset.sum_congr rfl fun j hj => ?_
    rw [hgeq i hi, hgeq j hj]
    ring
  rw [hkey]
  have hgi0 := hg i0 (Finset.mem_range.mp hi0R)
  exact mul_nonneg (mul_nonneg hgi0.1 (by linarith [hgi0.2]))
    (Finset.sum_nonneg fun k _ => sq_nonneg _)

/-- C7 (amended): for every design X and response y, every group vector,
every mu and s, and every g with entries in [0,1] that is additionally
constant within each group (the invariant the driver maintains),
compute_S on the derived yty = yᵗy, yx = Xᵗy and xtx = XᵗX is
nonnegative. -/
theorem compute_S_nonneg (n p : ℕ) (X : ℕ → ℕ → ℝ) (y : ℕ → ℝ)
    (groups : ℕ → ℕ) (mu s g : ℕ → ℝ)
    (hg : ∀ i, i < p → 0 ≤ g i ∧ g i ≤ 1)
    (hgc : ∀ i j, i < p → j < p → groups i = groups j → g i = g j) :
    0 ≤ compute_S (ytyOf n y) (yxOf n y X) (xtxOf n X) groups mu s g p := by
  have hB : ∀ i ∈ Finset.range p, g i * (s i * s i) * xtxOf n X i i
      = ∑ j ∈ Finset.range p,
          if i = j then xtxOf n X i j * (g i * (s i * s i)) else 0 := by
    intro i hi
    rw [Finset.sum_ite_eq (Finset.range p) i
      (fun j => xtxOf n X i j * (g i * (s i * s i))), if_pos hi]
    ring
  have hQ : (∑ i ∈ Finset.range p, ∑ j ∈ Finset.range p,
        ((if i = j then xtxOf n X i i * g i * (s i * s i + mu i * mu i) else 0) +
         (if i ≠ j ∧ groups i = groups j then
            xtxOf n X i j * g i * mu i * mu j else 0) +
         (if i ≠ j ∧ groups i ≠ groups j then
            xtxOf n X i j * g i * g j * mu i * mu j else 0)))
      = (∑ i ∈ Finset.range p, ∑ j ∈ Finset.range p,
          xtxOf n X i j * ((g i * mu i) * (g j * mu j)))
        + (∑ i ∈ Finset.range p, g i * (s i * s i) * xtxOf n X i i)
        + (∑ i ∈ Finset.range p, ∑ j ∈ Finset.range p,
            if groups i = groups j then
              xtxOf n X i j * (g i * (1 - g j)) * (mu i * mu j) else 0) := by
    rw [Finset.sum_congr rfl hB, ← Finset.sum_add_distrib, ← Finset.sum_add_distrib]
    refine Finset.sum_congr rfl fun i _ => ?_
    rw [← Finset.sum_add_distrib, ← Finset.sum_add_distrib]
    refine Finset.sum_congr rfl fun j _ => ?_
    by_cases hij : i = j
    · subst hij
      simp only [eq_self_iff_true, if_true, ne_eq, not_true_eq_false, false_and,
        if_false, ite_true, ite_false]
      ring
    · by_cases hgr : groups i = groups j
      · simp only [hij, hgr, ne_eq, not_false_eq_true, true_and, and_true,
          not_true_eq_false, and_false, eq_self_iff_true, if_true, if_false,
          ite_true, ite_false]
        ring
      · simp only [hij, hgr, ne_eq, not_false_eq_true, true_and, and_true,
          eq_self_iff_true, if_true, if_false, ite_true, ite_false]
        ring
  have hid : compute_S (ytyOf n y) (yxOf n y X) (xtxOf n X) groups mu s g p
      = (∑ k ∈ Finset.range n,
          (y k - ∑ i ∈ Finset.range p, (g i * mu i) * X k i) ^ 2)
        + (∑ i ∈ Finset.range p, g i * (s i * s i) * xtxOf n X i i)
        + (∑ i ∈ Finset.range p, ∑ j ∈ Finset.range p,
            if groups i = groups j then
              xtxOf n X i j * (g i * (1 - g j)) * (mu i * mu j) else 0) := by
    rw [sum_residual_sq_expand n p X y (fun i => g i * mu i)]
    unfold compute_S
    dsimp only
    rw [hQ]
    ring
  rw [hid]
  have h1 : 0 ≤ ∑ k ∈ Finset.range n,
      (y k - ∑ i ∈ Finset.range p, (g i * mu i) * X k i) ^ 2 :=
    Finset.sum_nonneg fun k _ => sq_nonneg _
  have h2 : 0 ≤ ∑ i ∈ Finset.range p, g i * (s i * s i) * xtxOf n X i i := by
    refine Finset.sum_nonneg fun i hi => ?_
    have hx : 0 ≤ xtxOf n X i i := by
      unfold xtxOf
      exact Finset.sum_nonneg fun k _ => mul_self_nonneg _
    exact mul_nonneg (mul_nonneg (hg i (Finset.mem_range.mp hi)).1
      (mul_self_nonneg _)) hx
  have h3 := sum_ite_group_nonneg n p X groups mu g hg hgc
  linarith

/-- Witness for C7 (amended) at a concrete one-column design. -/
theorem compute_S_nonneg_witness :
    0 ≤ compute_S (ytyOf 1 (fun _ => 0)) (yxOf 1 (fun _ => 0) (fun _ _ => 1))
      (xtxOf 1 (fun _ _ => 1)) (fun _ => 0) (fun _ => 0) (fun _ => 0)
      (fun _ => (1:ℝ)/2) 1 :=
  compute_S_nonneg 1 1 (fun _ _ => 1) (fun _ => 0) (fun _ => 0) (fun _ => 0)
    (fun _ => 0) (fun _ => (1:ℝ)/2)
    (fun _ _ => by norm_num) (fun _ _ _ _ _ => rfl)

end Gsvb
